import Mathlib

/-!
Verification of the ReRo-CCTV streaming backend (src/backend-fastapi/main.py).

The server keeps three pieces of shared state (lines 21 to 23 of main.py):
  active_sockets : dict[WebSocket, int]  -- connection handle to its quality
  frames_needed  : Counter               -- quality to demand count
  frames         : dict[int, bytes]      -- quality to latest encoded frame

We embed Python dicts as association lists with first-match lookup,
set-or-append update, and delete; the Counter defaults a missing key to 0.
Connections are opaque handles (Nat), qualities are Python ints (Int),
byte strings are lists of Nat.
-/

namespace ReRoCCTV

abbrev Conn := Nat
abbrev Quality := Int
abbrev Bytes := List Nat

/-- Python dict lookup, first match (keys of a real dict are unique). -/
def dictGet? {α β : Type} [DecidableEq α] : List (α × β) → α → Option β
  | [], _ => none
  | (k, v) :: rest, k0 => if k0 = k then some v else dictGet? rest k0

/-- Python dict assignment: replace the value of an existing key in place,
otherwise append the new binding. -/
def dictSet {α β : Type} [DecidableEq α] : List (α × β) → α → β → List (α × β)
  | [], k, v => [(k, v)]
  | (k0, v0) :: rest, k, v =>
      if k = k0 then (k, v) :: rest else (k0, v0) :: dictSet rest k v

/-- Python `del d[k]` on a dict (keys unique, so removing every binding of k
coincides with removing the one binding). -/
def dictDel {α β : Type} [DecidableEq α] : List (α × β) → α → List (α × β)
  | [], _ => []
  | (k0, v0) :: rest, k =>
      if k = k0 then dictDel rest k else (k0, v0) :: dictDel rest k

/-- Counter read: a missing key counts as 0 (collections.Counter semantics). -/
def counterGet (c : List (Quality × Int)) (q : Quality) : Int :=
  (dictGet? c q).getD 0

/-- The keys of an association list are pairwise distinct, as in a real dict. -/
def keysNodup {β : Type} : List (Nat × β) → Prop
  | [] => True
  | (k, _) :: rest => dictGet? rest k = none ∧ keysNodup rest

/-- The shared mutable state of main.py (lines 21 to 23). -/
structure State where
  active : List (Conn × Quality)
  needed : List (Quality × Int)
  frames : List (Quality × Bytes)
deriving Repr, DecidableEq

/-- All three containers start empty. -/
def initState : State := ⟨[], [], []⟩

/-- Registration of an accepted socket, main.py lines 120 to 122:
active_sockets[websocket] = quality; frames_needed[quality] += 1. -/
def subscribe (st : State) (ws : Conn) (q : Quality) : State :=
  { st with
      active := dictSet st.active ws q,
      needed := dictSet st.needed q (counterGet st.needed q + 1) }

/-- Removal of a socket. This is the body shared by the handler cleanup
(main.py lines 132 to 136) and the broadcast failure eviction (lines 55 to 58):
if the socket is present, look up its quality q, set
frames_needed[q] = max(frames_needed[q] - 1, 0), and delete the socket. -/
def removeSocket (st : State) (ws : Conn) : State :=
  match dictGet? st.active ws with
  | none => st
  | some q =>
      { st with
          needed := dictSet st.needed q (max (counterGet st.needed q - 1) 0),
          active := dictDel st.active ws }

/-- Outcome of the handshake in websocket_endpoint. -/
inductive HandshakeResult where
  | closed (code : Nat) (reason : String)
  | accepted
deriving Repr, DecidableEq

/-- The validation and registration part of websocket_endpoint,
main.py lines 113 to 122: a quality outside [30, 95] closes the session with
code 1003 and touches no shared state; otherwise the socket is accepted and
subscribed. -/
def websocket_endpoint (st : State) (ws : Conn) (quality : Quality) :
    HandshakeResult × State :=
  if quality < 30 ∨ quality > 95 then
    (.closed 1003 "Invalid quality parameter", st)
  else
    (.accepted, subscribe st ws quality)

/-- The list comprehension of main.py line 45:
[ws for ws, q in active_sockets.items() if q == quality]. -/
def socketsAt : List (Conn × Quality) → Quality → List Conn
  | [], _ => []
  | (ws, q0) :: rest, q =>
      if q0 = q then ws :: socketsAt rest q else socketsAt rest q

/-- Everything observable about one run of update_websockets_for_quality:
the snapshot taken under the lock, the per-socket send outcomes, the payloads
handed to safe_send, the payloads that arrived, the close calls issued by this
function, and the state after the eviction pass. -/
structure BroadcastResult where
  frameData : Bytes
  sockets : List Conn
  results : List Bool
  attempts : List (Conn × Bytes)
  delivered : List (Conn × Bytes)
  closedCalls : List Conn
  newState : State
deriving Repr, DecidableEq

/-- main.py lines 40 to 61. The environment decides which sends succeed,
so the function takes sendOk : Conn to Bool standing for the outcome of
safe_send on each socket (lines 32 to 38: send_bytes either succeeds or the
caught exception makes safe_send return False). Under the lock the function
snapshots frame_data = frames.get(quality, b'') and the sockets at this
quality (lines 44 to 45); safe_send is called with the same frame_data for
every socket (line 49); the eviction pass (lines 53 to 58) runs removeSocket
for each failed socket in order. No close call on any socket appears anywhere
in this function, hence closedCalls is empty. -/
def update_websockets_for_quality (st : State) (sendOk : Conn → Bool)
    (quality : Quality) : BroadcastResult :=
  let frameData := (dictGet? st.frames quality).getD []
  let sockets := socketsAt st.active quality
  { frameData := frameData
    sockets := sockets
    results := sockets.map sendOk
    attempts := sockets.map (fun ws => (ws, frameData))
    delivered := (sockets.filter (fun ws => sendOk ws)).map
      (fun ws => (ws, frameData))
    closedCalls := []
    newState := (sockets.filter (fun ws => !sendOk ws)).foldl removeSocket st }

/-- The list comprehension of main.py line 78:
[q for q, count in frames_needed.items() if count > 0]. -/
def requiredQualities : List (Quality × Int) → List Quality
  | [] => []
  | (q, c) :: rest =>
      if c > 0 then q :: requiredQualities rest else requiredQualities rest

/-- Everything observable about one iteration of the while loop in
image_updater: the state afterwards, the qualities for which a broadcast
thread was started, and whether the pacing code (lines 98 to 107) ran. -/
structure CycleResult where
  newState : State
  broadcasts : List Quality
  paced : Bool
deriving Repr, DecidableEq

/-- One iteration of the capture loop, main.py lines 68 to 107. The camera
read result (ret, frame) and the JPEG encoder are parameters: encode frame q
stands for cv2.imencode at quality q (line 84). When ret is False the Python
code executes continue (line 74), which jumps straight back to the top of the
while loop: no encode, no frames write, no broadcast thread, and the pacing
block at lines 98 to 107 is skipped, so paced is false on that path. When ret
is True the loop encodes the frame once per required quality, stores each
result in frames (line 89), starts one broadcast thread per quality
(lines 92 to 96), and then runs the pacing block. -/
def image_updater_cycle (encode : Nat → Quality → Bytes) (st : State)
    (ret : Bool) (frame : Nat) : CycleResult :=
  if !ret then
    ⟨st, [], false⟩
  else
    let required := requiredQualities st.needed
    ⟨{ st with
        frames := required.foldl (fun fr q => dictSet fr q (encode frame q))
          st.frames },
      required, true⟩

/-- main.py line 66: interval = 1 / 34. -/
def interval : ℚ := 1 / 34

/-- What the pacing block leaves behind: the time at which the loop resumes
and the new value of last_time. -/
structure PaceResult where
  wakeTime : ℚ
  lastTime : ℚ
deriving Repr, DecidableEq

/-- The pacing block, main.py lines 98 to 107, over an idealised monotonic
clock in ℚ. Inputs: last_time, the start_time read at line 69, and now, the
perf_counter reading at line 99. Line 100 sleeps max(interval - elapsed, 0);
lines 104 to 106 then wait until next_time = last_time + interval, modelled
as taking the max with the deadline (the 1 ms polling granularity of the
busy wait is idealised away; it does not affect last_time). Line 107 sets
last_time = next_time: the new deadline is the old deadline plus interval and
never depends on now. -/
def paceCycle (last_time start_time now : ℚ) : PaceResult :=
  let elapsed := now - start_time
  let sleep_time := max (interval - elapsed) 0
  let afterSleep := now + sleep_time
  let next_time := last_time + interval
  ⟨max afterSleep next_time, next_time⟩

/-- Number of active_sockets entries currently mapped to quality q. -/
def countConnsAt : List (Conn × Quality) → Quality → Int
  | [], _ => 0
  | (_, q0) :: rest, q => (if q0 = q then 1 else 0) + countConnsAt rest q

/-- The transitions the program performs on the shared registry state:
subscribe at websocket_endpoint (main.py lines 120 to 122), the handler
cleanup (lines 132 to 136), and the eviction pass of a broadcast
(lines 52 to 58). This relation places no constraint on the subscribing
handle. -/
inductive RegistryStep : State → State → Prop
  | sub (st : State) (ws : Conn) (q : Quality) :
      RegistryStep st (subscribe st ws q)
  | cleanup (st : State) (ws : Conn) :
      RegistryStep st (removeSocket st ws)
  | evict (st : State) (sendOk : Conn → Bool) (q : Quality) :
      RegistryStep st (update_websockets_for_quality st sendOk q).newState

/-- States reachable from the empty initial state by registry operations. -/
def RegistryReachable (st : State) : Prop :=
  Relation.ReflTransGen RegistryStep initState st

/-- The same transitions, except that a subscribe only happens for a handle
that is not currently registered: the server subscribes each websocket object
exactly once, right after accepting it, and every accepted websocket is a
fresh object. -/
inductive ProgStep : State → State → Prop
  | sub (st : State) (ws : Conn) (q : Quality) :
      dictGet? st.active ws = none → ProgStep st (subscribe st ws q)
  | cleanup (st : State) (ws : Conn) :
      ProgStep st (removeSocket st ws)
  | evict (st : State) (sendOk : Conn → Bool) (q : Quality) :
      ProgStep st (update_websockets_for_quality st sendOk q).newState

/-- States reachable from the empty initial state by program transitions. -/
def ProgReachable (st : State) : Prop :=
  Relation.ReflTransGen ProgStep initState st

/-! ## Lemmas about the dictionary operations -/

theorem dictGet_set_self {α β : Type} [DecidableEq α]
    (d : List (α × β)) (k : α) (v : β) :
    dictGet? (dictSet d k v) k = some v := by
  induction d with
  | nil => simp [dictSet, dictGet?]
  | cons p rest ih =>
      obtain ⟨k0, v0⟩ := p
      by_cases h : k = k0
      · simp [dictSet, h, dictGet?]
      · simp [dictSet, h, dictGet?, ih]

theorem dictGet_set_ne {α β : Type} [DecidableEq α]
    (d : List (α × β)) (k k0 : α) (v : β) (h : k ≠ k0) :
    dictGet? (dictSet d k0 v) k = dictGet? d k := by
  induction d with
  | nil => simp [dictSet, dictGet?, h]
  | cons p rest ih =>
      obtain ⟨k1, v1⟩ := p
      by_cases h1 : k0 = k1
      · subst h1
        simp [dictSet, dictGet?, h]
      · by_cases h2 : k = k1
        · simp [dictSet, h1, dictGet?, h2]
        · simp [dictSet, h1, dictGet?, h2, ih]

theorem dictGet_del_self {α β : Type} [DecidableEq α]
    (d : List (α × β)) (k : α) :
    dictGet? (dictDel d k) k = none := by
  induction d with
  | nil => simp [dictDel, dictGet?]
  | cons p rest ih =>
      obtain ⟨k0, v0⟩ := p
      by_cases h : k = k0
      · subst h
        simp [dictDel, ih]
      · simp [dictDel, h, dictGet?, ih]

theorem dictGet_del_ne {α β : Type} [DecidableEq α]
    (d : List (α × β)) (k k0 : α) (h : k ≠ k0) :
    dictGet? (dictDel d k0) k = dictGet? d k := by
  induction d with
  | nil => simp [dictDel]
  | cons p rest ih =>
      obtain ⟨k1, v1⟩ := p
      by_cases h1 : k0 = k1
      · subst h1
        simp [dictDel, dictGet?, h, ih]
      · by_cases h2 : k = k1
        · simp [dictDel, h1, dictGet?, h2]
        · simp [dictDel, h1, dictGet?, h2, ih]

theorem counterGet_set_self (c : List (Quality × Int)) (q : Quality) (v : Int) :
    counterGet (dictSet c q v) q = v := by
  simp [counterGet, dictGet_set_self]

theorem counterGet_set_ne (c : List (Quality × Int)) (q q0 : Quality) (v : Int)
    (h : q ≠ q0) :
    counterGet (dictSet c q0 v) q = counterGet c q := by
  simp [counterGet, dictGet_set_ne c q q0 v h]

/-- Removing an absent socket leaves the state untouched (the membership
guard at main.py lines 55 and 133). -/
theorem removeSocket_of_absent (st : State) (ws : Conn)
    (h : dictGet? st.active ws = none) : removeSocket st ws = st := by
  simp [removeSocket, h]

/-- After removeSocket the socket is gone from active_sockets. -/
theorem removeSocket_get_self (st : State) (ws : Conn) :
    dictGet? (removeSocket st ws).active ws = none := by
  cases hg : dictGet? st.active ws with
  | none => simp [removeSocket, hg]
  | some q => simp [removeSocket, hg, dictGet_del_self]

/-! ## Claims C3, C4, C5, C8 -/

/-- C3: a connection requesting quality q with q < 30 or q > 95 is closed
immediately with close code 1003 and the shared state, in particular
frames_needed, is untouched; with 30 <= q <= 95 (boundaries included) the
connection is accepted and subscribed. -/
theorem websocket_endpoint_validation :
    ∀ (st : State) (ws : Conn) (q : Quality),
      ((q < 30 ∨ q > 95) →
        websocket_endpoint st ws q = (.closed 1003 "Invalid quality parameter", st))
      ∧ (30 ≤ q → q ≤ 95 →
        websocket_endpoint st ws q = (.accepted, subscribe st ws q)) := by
  intro st ws q
  constructor
  · intro h
    simp [websocket_endpoint, h]
  · intro h1 h2
    have h : ¬(q < 30 ∨ q > 95) := fun hor =>
      hor.elim (fun hl => absurd h1 (not_le.mpr hl))
        (fun hg => absurd h2 (not_le.mpr hg))
    simp [websocket_endpoint, h]

theorem websocket_endpoint_validation_witness :
    websocket_endpoint initState 0 29 = (.closed 1003 "Invalid quality parameter", initState)
    ∧ websocket_endpoint initState 0 96 = (.closed 1003 "Invalid quality parameter", initState)
    ∧ websocket_endpoint initState 0 30 = (.accepted, subscribe initState 0 30)
    ∧ websocket_endpoint initState 0 95 = (.accepted, subscribe initState 0 95) :=
  ⟨(websocket_endpoint_validation initState 0 29).1 (by decide),
   (websocket_endpoint_validation initState 0 96).1 (by decide),
   (websocket_endpoint_validation initState 0 30).2 (by decide) (by decide),
   (websocket_endpoint_validation initState 0 95).2 (by decide) (by decide)⟩

/-- C4: on any registry state with a non-negative count at q, subscribe
followed by unsubscribe (the removeSocket body shared by the handler cleanup
and the broadcast failure path) returns frames_needed[q] to its prior value;
unsubscribing twice equals unsubscribing once, and unsubscribing an absent
connection is a no-op. -/
theorem subscribe_unsubscribe_roundtrip :
    ∀ (st : State) (c : Conn) (q : Quality),
      (0 ≤ counterGet st.needed q →
        counterGet (removeSocket (subscribe st c q) c).needed q
          = counterGet st.needed q)
      ∧ removeSocket (removeSocket st c) c = removeSocket st c
      ∧ (dictGet? st.active c = none → removeSocket st c = st) := by
  intro st c q
  refine ⟨?_, ?_, removeSocket_of_absent st c⟩
  · intro h
    have hget : dictGet? (subscribe st c q).active c = some q := by
      simp [subscribe, dictGet_set_self]
    simp only [removeSocket, hget]
    simp only [subscribe]
    rw [counterGet_set_self, counterGet_set_self, add_sub_cancel_right,
      max_eq_left h]
  · exact removeSocket_of_absent _ c (removeSocket_get_self st c)

theorem subscribe_unsubscribe_roundtrip_witness :
    (0 ≤ counterGet initState.needed 50
      ∧ counterGet (removeSocket (subscribe initState 7 50) 7).needed 50
          = counterGet initState.needed 50)
    ∧ removeSocket (removeSocket initState 7) 7 = removeSocket initState 7 :=
  ⟨⟨by decide, (subscribe_unsubscribe_roundtrip initState 7 50).1 (by decide)⟩,
   (subscribe_unsubscribe_roundtrip initState 7 50).2.1⟩

/-- C5 counterexample: in a cycle whose camera read fails, the pacing block
does not run (the continue at main.py line 74 jumps over lines 98 to 107),
contradicting the claim that the failed cycle still proceeds through the
pacing phase. -/
theorem camera_failure_cycle_counterexample :
    (image_updater_cycle (fun _ _ => []) initState false 0).paced = false := rfl

/-- C5 (amended): a cycle whose camera read fails performs no encoding, no
frame cache mutation and no broadcast, and the loop proceeds to the next
cycle; however the pacing block is skipped (the continue statement returns
straight to the next capture), so the failed cycle does not pace. -/
theorem camera_failure_cycle :
    ∀ (encode : Nat → Quality → Bytes) (st : State) (frame : Nat),
      image_updater_cycle encode st false frame = ⟨st, [], false⟩ :=
  fun _ _ _ => rfl

/-- C8: the loop paces to the fixed period interval = 1 / 34; the new
last_time after a pacing phase is the previous deadline plus the interval,
independent of the current clock reading; over two cycles the second deadline
is the first plus one period; and after an overrunning cycle (now past the
deadline) the following deadline is still the old deadline plus one period,
not the current time. -/
theorem pacing_fixed_deadline :
    interval = 1 / 34
    ∧ (∀ lt s now, (paceCycle lt s now).lastTime = lt + interval)
    ∧ (∀ lt s now s2 now2,
        (paceCycle lt s now).lastTime = (paceCycle lt s2 now2).lastTime)
    ∧ (∀ lt s now s2 now2,
        (paceCycle (paceCycle lt s now).lastTime s2 now2).lastTime
          = (paceCycle lt s now).lastTime + interval)
    ∧ (∀ lt s now, lt + interval < now →
        (paceCycle lt s now).lastTime = lt + interval
        ∧ (paceCycle lt s now).lastTime ≠ now) := by
  refine ⟨rfl, fun _ _ _ => rfl, fun _ _ _ _ _ => rfl, fun _ _ _ _ _ => rfl, ?_⟩
  intro lt s now h
  exact ⟨rfl, ne_of_lt h⟩

theorem pacing_fixed_deadline_witness :
    (0 : ℚ) + interval < 1
    ∧ (paceCycle 0 0 1).lastTime = 0 + interval
    ∧ (paceCycle 0 0 1).lastTime ≠ 1 := by
  have h : (0 : ℚ) + interval < 1 := by norm_num [interval]
  exact ⟨h, (pacing_fixed_deadline.2.2.2.2 0 0 1 h).1,
    (pacing_fixed_deadline.2.2.2.2 0 0 1 h).2⟩

/-! ## Claim C1: a successful cycle refreshes the cache of every wanted
quality -/

/-- A quality with a positive count is in the list built at main.py line 78. -/
theorem mem_requiredQualities (needed : List (Quality × Int)) (q : Quality)
    (h : 0 < counterGet needed q) : q ∈ requiredQualities needed := by
  induction needed with
  | nil => simp [counterGet, dictGet?] at h
  | cons p rest ih =>
      obtain ⟨q0, c0⟩ := p
      by_cases hq : q = q0
      · subst hq
        have hc : counterGet ((q, c0) :: rest) q = c0 := by
          simp [counterGet, dictGet?]
        rw [hc] at h
        simp [requiredQualities, h]
      · have hc : counterGet ((q0, c0) :: rest) q = counterGet rest q := by
          simp [counterGet, dictGet?, hq]
        rw [hc] at h
        by_cases hpos : c0 > 0
        · simp only [requiredQualities, if_pos hpos]
          exact List.mem_cons_of_mem q0 (ih h)
        · simp only [requiredQualities, if_neg hpos]
          exact ih h

/-- Folding dict writes over keys not containing k leaves k untouched. -/
theorem dictGet_foldl_set_not_mem {α β : Type} [DecidableEq α]
    (enc : α → β) (l : List α) :
    ∀ (d : List (α × β)) (k : α), k ∉ l →
      dictGet? (l.foldl (fun fr k0 => dictSet fr k0 (enc k0)) d) k
        = dictGet? d k := by
  induction l with
  | nil => intro d k _; rfl
  | cons a t ih =>
      intro d k h
      have hka : k ≠ a := fun hk => h (by rw [hk]; exact List.mem_cons_self a t)
      have hkt : k ∉ t := fun hm => h (List.mem_cons_of_mem a hm)
      rw [List.foldl_cons, ih (dictSet d a (enc a)) k hkt,
        dictGet_set_ne d k a (enc a) hka]

/-- Folding dict writes over a key list ends with each listed key bound to
its written value. -/
theorem dictGet_foldl_set_mem {α β : Type} [DecidableEq α]
    (enc : α → β) (l : List α) :
    ∀ (d : List (α × β)) (k : α), k ∈ l →
      dictGet? (l.foldl (fun fr k0 => dictSet fr k0 (enc k0)) d) k
        = some (enc k) := by
  induction l with
  | nil => intro d k h; cases h
  | cons a t ih =>
      intro d k h
      rw [List.foldl_cons]
      by_cases hm : k ∈ t
      · exact ih _ k hm
      · have hka : k = a := by
          rcases List.mem_cons.mp h with h1 | h2
          · exact h1
          · exact absurd h2 hm
        subst hka
        rw [dictGet_foldl_set_not_mem enc t _ k hm, dictGet_set_self]

/-- C1: in a capture cycle whose camera read succeeds, every quality whose
demand count is positive when the cycle queries frames_needed has its frames
entry overwritten, by the end of the cycle, with the encoding of that cycle
raw frame at that quality. -/
theorem cycle_updates_cache :
    ∀ (encode : Nat → Quality → Bytes) (st : State) (frame : Nat) (q : Quality),
      0 < counterGet st.needed q →
      dictGet? (image_updater_cycle encode st true frame).newState.frames q
        = some (encode frame q) := by
  intro encode st frame q h
  have hm := mem_requiredQualities st.needed q h
  have hframes : (image_updater_cycle encode st true frame).newState.frames
      = (requiredQualities st.needed).foldl
          (fun fr q0 => dictSet fr q0 (encode frame q0)) st.frames := rfl
  rw [hframes]
  exact dictGet_foldl_set_mem (encode frame) (requiredQualities st.needed)
    st.frames q hm

theorem cycle_updates_cache_witness :
    0 < counterGet (State.mk [(1, 50)] [(50, 1)] []).needed 50
    ∧ dictGet? (image_updater_cycle (fun f q => [f, q.toNat])
        (State.mk [(1, 50)] [(50, 1)] []) true 3).newState.frames 50
        = some [3, 50] := by
  refine ⟨by decide, ?_⟩
  have h := cycle_updates_cache (fun f q => [f, q.toNat])
    (State.mk [(1, 50)] [(50, 1)] []) 3 50 (by decide)
  simpa using h

/-! ## Claim C6: one broadcast sends one byte-identical payload -/

/-- C6: within one broadcast at quality q, every socket in the snapshot is
handed the same payload, that payload is the single frames snapshot taken for
q, and any two delivered payloads are byte-identical. -/
theorem broadcast_same_bytes :
    ∀ (st : State) (sendOk : Conn → Bool) (q : Quality),
      (∀ ws, ws ∈ (update_websockets_for_quality st sendOk q).sockets →
        (ws, (update_websockets_for_quality st sendOk q).frameData)
          ∈ (update_websockets_for_quality st sendOk q).attempts)
      ∧ (∀ p, p ∈ (update_websockets_for_quality st sendOk q).attempts →
          p.2 = (dictGet? st.frames q).getD [])
      ∧ (∀ p p2, p ∈ (update_websockets_for_quality st sendOk q).delivered →
          p2 ∈ (update_websockets_for_quality st sendOk q).delivered →
          p.2 = p2.2) := by
  intro st sendOk q
  refine ⟨?_, ?_, ?_⟩
  · intro ws hws
    simp only [update_websockets_for_quality] at hws ⊢
    exact List.mem_map.mpr ⟨ws, hws, rfl⟩
  · intro p hp
    simp only [update_websockets_for_quality] at hp
    obtain ⟨ws, _, rfl⟩ := List.mem_map.mp hp
    rfl
  · intro p p2 hp hp2
    simp only [update_websockets_for_quality] at hp hp2
    obtain ⟨ws, _, rfl⟩ := List.mem_map.mp hp
    obtain ⟨ws2, _, rfl⟩ := List.mem_map.mp hp2
    rfl

theorem broadcast_same_bytes_witness :
    ((1, [9, 9]) ∈ (update_websockets_for_quality
        (State.mk [(1, 50), (2, 50)] [(50, 2)] [(50, [9, 9])])
        (fun _ => true) 50).attempts)
    ∧ ((1, [9, 9]) : Conn × Bytes).2
        = (dictGet? (State.mk [(1, 50), (2, 50)] [(50, 2)]
            [(50, [9, 9])]).frames 50).getD [] :=
  ⟨by decide,
   (broadcast_same_bytes (State.mk [(1, 50), (2, 50)] [(50, 2)] [(50, [9, 9])])
     (fun _ => true) 50).2.1 (1, [9, 9]) (by decide)⟩

/-! ## Claim C7: eviction of failed connections, and the absent close call -/

/-- removeSocket never adds a key to active_sockets. -/
theorem removeSocket_preserves_absent (st : State) (ws k : Conn)
    (h : dictGet? st.active k = none) :
    dictGet? (removeSocket st ws).active k = none := by
  cases hg : dictGet? st.active ws with
  | none => rw [removeSocket_of_absent st ws hg]; exact h
  | some q =>
      simp only [removeSocket, hg]
      by_cases hk : k = ws
      · subst hk; exact dictGet_del_self st.active k
      · rw [dictGet_del_ne st.active k ws hk]; exact h

/-- A fold of removeSocket never adds a key to active_sockets. -/
theorem foldl_removeSocket_preserves_absent (l : List Conn) :
    ∀ (st : State) (k : Conn), dictGet? st.active k = none →
      dictGet? ((l.foldl removeSocket st)).active k = none := by
  induction l with
  | nil => intro st k h; exact h
  | cons a t ih =>
      intro st k h
      rw [List.foldl_cons]
      exact ih _ k (removeSocket_preserves_absent st a k h)

/-- After folding removeSocket over a list, every listed socket is gone. -/
theorem foldl_removeSocket_mem (l : List Conn) :
    ∀ (st : State) (f : Conn), f ∈ l →
      dictGet? ((l.foldl removeSocket st)).active f = none := by
  induction l with
  | nil => intro st f h; cases h
  | cons a t ih =>
      intro st f h
      rw [List.foldl_cons]
      by_cases hm : f ∈ t
      · exact ih _ f hm
      · have hfa : f = a := by
          rcases List.mem_cons.mp h with h1 | h2
          · exact h1
          · exact absurd h2 hm
        subst hfa
        exact foldl_removeSocket_preserves_absent t _ f
          (removeSocket_get_self st f)

/-- C7 counterexample: with a single subscriber whose send fails, the
broadcaster evicts it from active_sockets but issues no close call on its
transport (closedCalls is empty), so the Broadcaster does not close or
release the failed transport as the claim states. -/
theorem broadcast_close_counterexample :
    ((update_websockets_for_quality (State.mk [(1, 50)] [(50, 1)] [(50, [9])])
        (fun _ => false) 50).sockets = [1])
    ∧ ((update_websockets_for_quality (State.mk [(1, 50)] [(50, 1)] [(50, [9])])
        (fun _ => false) 50).results = [false])
    ∧ ((update_websockets_for_quality (State.mk [(1, 50)] [(50, 1)] [(50, [9])])
        (fun _ => false) 50).newState.active = [])
    ∧ ((update_websockets_for_quality (State.mk [(1, 50)] [(50, 1)] [(50, [9])])
        (fun _ => false) 50).closedCalls = []) := by
  decide

/-- C7 (amended): every connection whose delivery fails during a broadcast is
unsubscribed from the Demand Registry: the post-broadcast state is exactly
the fold of removeSocket over the failed sockets, and the failed connection
is no longer in active_sockets afterwards; but the broadcaster itself closes
no transport (its list of close calls is empty), transport release being left
to the connection handler path. -/
theorem broadcast_evicts_failed :
    ∀ (st : State) (sendOk : Conn → Bool) (q : Quality) (f : Conn),
      f ∈ (update_websockets_for_quality st sendOk q).sockets →
      sendOk f = false →
      dictGet? (update_websockets_for_quality st sendOk q).newState.active f
        = none
      ∧ (update_websockets_for_quality st sendOk q).newState
          = ((update_websockets_for_quality st sendOk q).sockets.filter
              (fun ws => !sendOk ws)).foldl removeSocket st
      ∧ (update_websockets_for_quality st sendOk q).closedCalls = [] := by
  intro st sendOk q f hf hsend
  have hmemf : f ∈ (socketsAt st.active q).filter (fun ws => !sendOk ws) :=
    List.mem_filter.mpr ⟨hf, by simp [hsend]⟩
  exact ⟨foldl_removeSocket_mem _ st f hmemf, rfl, rfl⟩

theorem broadcast_evicts_failed_witness :
    (1 ∈ (update_websockets_for_quality
        (State.mk [(1, 50), (2, 50)] [(50, 2)] [(50, [9])])
        (fun ws => ws != 1) 50).sockets)
    ∧ ((fun ws => ws != 1) 1 = false)
    ∧ dictGet? (update_websockets_for_quality
        (State.mk [(1, 50), (2, 50)] [(50, 2)] [(50, [9])])
        (fun ws => ws != 1) 50).newState.active 1 = none
    ∧ (update_websockets_for_quality
        (State.mk [(1, 50), (2, 50)] [(50, 2)] [(50, [9])])
        (fun ws => ws != 1) 50).closedCalls = [] := by
  refine ⟨by decide, by decide, ?_, ?_⟩
  · exact (broadcast_evicts_failed
      (State.mk [(1, 50), (2, 50)] [(50, 2)] [(50, [9])])
      (fun ws => ws != 1) 50 1 (by decide) (by decide)).1
  · exact (broadcast_evicts_failed
      (State.mk [(1, 50), (2, 50)] [(50, 2)] [(50, [9])])
      (fun ws => ws != 1) 50 1 (by decide) (by decide)).2.2

/-! ## Claim C2: one broken subscriber does not affect the others -/

/-- On a dict with distinct keys, a socket listed in the quality snapshot of
main.py line 45 is bound to exactly that quality. -/
theorem socketsAt_mem_get (active : List (Conn × Quality)) (q : Quality)
    (ws : Conn) (hnd : keysNodup active) (hm : ws ∈ socketsAt active q) :
    dictGet? active ws = some q := by
  induction active with
  | nil => cases hm
  | cons p rest ih =>
      obtain ⟨w0, q0⟩ := p
      obtain ⟨h0, hrest⟩ := hnd
      by_cases hq : q0 = q
      · rw [socketsAt, if_pos hq] at hm
        rcases List.mem_cons.mp hm with h1 | h2
        · subst h1
          simp [dictGet?, hq]
        · have hr := ih hrest h2
          have hne : ws ≠ w0 := by
            intro he
            rw [he, h0] at hr
            cases hr
          simp [dictGet?, hne, hr]
      · rw [socketsAt, if_neg hq] at hm
        have hr := ih hrest hm
        have hne : ws ≠ w0 := by
          intro he
          rw [he, h0] at hr
          cases hr
        simp [dictGet?, hne, hr]

/-- C2: when exactly one subscriber f in the broadcast snapshot at quality q
has a failing send, every other snapshot member is still sent that cycle
frame; the post-broadcast state is exactly removeSocket applied to f alone,
so f is gone from active_sockets, every other connection keeps its binding,
frames_needed[q] receives the clamped decrement, and no other quality count
changes. -/
theorem broadcast_single_failure :
    ∀ (st : State) (sendOk : Conn → Bool) (q : Quality) (f : Conn),
      keysNodup st.active →
      (update_websockets_for_quality st sendOk q).sockets.filter
        (fun ws => !sendOk ws) = [f] →
      (∀ ws, ws ∈ (update_websockets_for_quality st sendOk q).sockets →
        ws ≠ f →
          sendOk ws = true
          ∧ (ws, (update_websockets_for_quality st sendOk q).frameData)
              ∈ (update_websockets_for_quality st sendOk q).delivered)
      ∧ (update_websockets_for_quality st sendOk q).newState
          = removeSocket st f
      ∧ dictGet? (update_websockets_for_quality st sendOk q).newState.active f
          = none
      ∧ (∀ ws, ws ≠ f →
          dictGet? (update_websockets_for_quality st sendOk q).newState.active
            ws = dictGet? st.active ws)
      ∧ counterGet (update_websockets_for_quality st sendOk q).newState.needed
          q = max (counterGet st.needed q - 1) 0
      ∧ (∀ q2, q2 ≠ q →
          counterGet
            (update_websockets_for_quality st sendOk q).newState.needed q2
            = counterGet st.needed q2) := by
  intro st sendOk q f hnd hone
  have honeS : (socketsAt st.active q).filter (fun ws => !sendOk ws) = [f] :=
    hone
  have hfmem : f ∈ (socketsAt st.active q).filter (fun ws => !sendOk ws) := by
    rw [honeS]
    exact List.mem_singleton_self f
  have hfsock : f ∈ socketsAt st.active q := (List.mem_filter.mp hfmem).1
  have hflook : dictGet? st.active f = some q :=
    socketsAt_mem_get st.active q f hnd hfsock
  have hnew : (update_websockets_for_quality st sendOk q).newState
      = removeSocket st f := by
    show ((socketsAt st.active q).filter (fun ws => !sendOk ws)).foldl
        removeSocket st = removeSocket st f
    rw [honeS]
    rfl
  refine ⟨?_, hnew, ?_, ?_, ?_, ?_⟩
  · intro ws hws hne
    have hok : sendOk ws = true := by
      by_cases hb : sendOk ws
      · exact hb
      · exfalso
        have : ws ∈ (socketsAt st.active q).filter (fun w => !sendOk w) :=
          List.mem_filter.mpr ⟨hws, by simp [hb]⟩
        rw [honeS] at this
        exact hne (List.mem_singleton.mp this)
    refine ⟨hok, ?_⟩
    show (ws, (dictGet? st.frames q).getD [])
        ∈ ((socketsAt st.active q).filter (fun w => sendOk w)).map
          (fun w => (w, (dictGet? st.frames q).getD []))
    exact List.mem_map.mpr ⟨ws, List.mem_filter.mpr ⟨hws, hok⟩, rfl⟩
  · rw [hnew]
    exact removeSocket_get_self st f
  · intro ws hne
    rw [hnew]
    simp only [removeSocket, hflook]
    exact dictGet_del_ne st.active ws f hne
  · rw [hnew]
    simp only [removeSocket, hflook]
    exact counterGet_set_self st.needed q _
  · intro q2 hne
    rw [hnew]
    simp only [removeSocket, hflook]
    exact counterGet_set_ne st.needed q2 q _ hne

theorem broadcast_single_failure_witness :
    keysNodup ([(1, 50), (2, 50), (3, 50)] : List (Conn × Quality))
    ∧ (update_websockets_for_quality
        (State.mk [(1, 50), (2, 50), (3, 50)] [(50, 3)] [(50, [7])])
        (fun ws => ws != 2) 50).sockets.filter (fun ws => !(ws != 2)) = [2]
    ∧ ((1, [7]) ∈ (update_websockets_for_quality
        (State.mk [(1, 50), (2, 50), (3, 50)] [(50, 3)] [(50, [7])])
        (fun ws => ws != 2) 50).delivered)
    ∧ ((3, [7]) ∈ (update_websockets_for_quality
        (State.mk [(1, 50), (2, 50), (3, 50)] [(50, 3)] [(50, [7])])
        (fun ws => ws != 2) 50).delivered)
    ∧ (update_websockets_for_quality
        (State.mk [(1, 50), (2, 50), (3, 50)] [(50, 3)] [(50, [7])])
        (fun ws => ws != 2) 50).newState
        = removeSocket
            (State.mk [(1, 50), (2, 50), (3, 50)] [(50, 3)] [(50, [7])]) 2 := by
  have h := broadcast_single_failure
    (State.mk [(1, 50), (2, 50), (3, 50)] [(50, 3)] [(50, [7])])
    (fun ws => ws != 2) 50 2 ⟨rfl, rfl, rfl, trivial⟩ (by decide)
  exact ⟨⟨rfl, rfl, rfl, trivial⟩, by decide,
    (h.1 1 (by decide) (by decide)).2, (h.1 3 (by decide) (by decide)).2,
    h.2.1⟩

/-! ## Claim C9: demand counts never go negative -/

theorem nonneg_subscribe (st : State) (ws : Conn) (q : Quality)
    (h : ∀ q2, 0 ≤ counterGet st.needed q2) :
    ∀ q2, 0 ≤ counterGet (subscribe st ws q).needed q2 := by
  intro q2
  by_cases hq : q2 = q
  · subst hq
    simp only [subscribe]
    rw [counterGet_set_self]
    have := h q2
    omega
  · simp only [subscribe]
    rw [counterGet_set_ne _ _ _ _ hq]
    exact h q2

theorem nonneg_removeSocket (st : State) (ws : Conn)
    (h : ∀ q2, 0 ≤ counterGet st.needed q2) :
    ∀ q2, 0 ≤ counterGet (removeSocket st ws).needed q2 := by
  intro q2
  cases hg : dictGet? st.active ws with
  | none => rw [removeSocket_of_absent st ws hg]; exact h q2
  | some q =>
      simp only [removeSocket, hg]
      by_cases hq : q2 = q
      · subst hq
        rw [counterGet_set_self]
        exact le_max_right _ 0
      · rw [counterGet_set_ne _ _ _ _ hq]
        exact h q2

theorem nonneg_foldl_removeSocket (l : List Conn) :
    ∀ st : State, (∀ q2, 0 ≤ counterGet st.needed q2) →
      ∀ q2, 0 ≤ counterGet (l.foldl removeSocket st).needed q2 := by
  induction l with
  | nil => intro st h; exact h
  | cons a t ih =>
      intro st h
      rw [List.foldl_cons]
      exact ih _ (nonneg_removeSocket st a h)

/-- C9: in every state reachable from the empty initial state by any
sequence of subscribe, handler-cleanup unsubscribe and broadcast-failure
eviction operations, frames_needed[q] is non-negative for every quality q:
each increment starts from a non-negative value and each decrement is
clamped at zero. -/
theorem demand_counts_nonneg :
    ∀ st : State, RegistryReachable st → ∀ q : Quality,
      0 ≤ counterGet st.needed q := by
  intro st h
  induction h with
  | refl => intro q; simp [counterGet, initState, dictGet?]
  | tail _ hstep ih =>
      cases hstep with
      | sub ws q => exact nonneg_subscribe _ ws q ih
      | cleanup ws => exact nonneg_removeSocket _ ws ih
      | evict sendOk q => exact nonneg_foldl_removeSocket _ _ ih

theorem demand_counts_nonneg_witness :
    RegistryReachable initState ∧ 0 ≤ counterGet initState.needed 40 :=
  ⟨Relation.ReflTransGen.refl,
   demand_counts_nonneg initState Relation.ReflTransGen.refl 40⟩

/-! ## Claim C10: the demand count equals the number of subscribed
connections -/

/-- Deleting an absent key is the identity. -/
theorem dictDel_of_absent {α β : Type} [DecidableEq α]
    (d : List (α × β)) (k : α) (h : dictGet? d k = none) :
    dictDel d k = d := by
  induction d with
  | nil => rfl
  | cons p rest ih =>
      obtain ⟨k0, v0⟩ := p
      rw [dictGet?] at h
      by_cases hk : k = k0
      · rw [if_pos hk] at h
        cases h
      · rw [if_neg hk] at h
        rw [dictDel, if_neg hk, ih h]

/-- Writing a fresh key appends the binding at the end, as a Python dict
does. -/
theorem dictSet_of_absent {α β : Type} [DecidableEq α]
    (d : List (α × β)) (k : α) (v : β) (h : dictGet? d k = none) :
    dictSet d k v = d ++ [(k, v)] := by
  induction d with
  | nil => rfl
  | cons p rest ih =>
      obtain ⟨k0, v0⟩ := p
      rw [dictGet?] at h
      by_cases hk : k = k0
      · rw [if_pos hk] at h
        cases h
      · rw [if_neg hk] at h
        rw [dictSet, if_neg hk, ih h, List.cons_append]

/-- Lookup misses an appended binding of a different key. -/
theorem dictGet_append_singleton_ne {α β : Type} [DecidableEq α]
    (d : List (α × β)) (k k0 : α) (v : β) (h0 : dictGet? d k0 = none)
    (hne : k0 ≠ k) :
    dictGet? (d ++ [(k, v)]) k0 = none := by
  induction d with
  | nil => simp [dictGet?, hne]
  | cons p rest ih =>
      obtain ⟨k1, v1⟩ := p
      rw [dictGet?] at h0
      by_cases hk : k0 = k1
      · rw [if_pos hk] at h0
        cases h0
      · rw [if_neg hk] at h0
        rw [List.cons_append, dictGet?, if_neg hk]
        exact ih h0

/-- Appending a fresh binding keeps the keys distinct. -/
theorem keysNodup_append {β : Type} (d : List (Nat × β)) (k : Nat) (v : β)
    (hnd : keysNodup d) (h : dictGet? d k = none) :
    keysNodup (d ++ [(k, v)]) := by
  induction d with
  | nil => exact ⟨rfl, trivial⟩
  | cons p rest ih =>
      obtain ⟨k0, v0⟩ := p
      obtain ⟨h0, hrest⟩ := hnd
      rw [dictGet?] at h
      by_cases hk : k = k0
      · rw [if_pos hk] at h
        cases h
      · rw [if_neg hk] at h
        exact ⟨dictGet_append_singleton_ne rest k k0 v h0 (fun he => hk he.symm),
          ih hrest h⟩

/-- Deleting a key keeps the remaining keys distinct. -/
theorem keysNodup_del {β : Type} (d : List (Nat × β)) (k : Nat)
    (hnd : keysNodup d) : keysNodup (dictDel d k) := by
  induction d with
  | nil => trivial
  | cons p rest ih =>
      obtain ⟨k0, v0⟩ := p
      obtain ⟨h0, hrest⟩ := hnd
      by_cases hk : k = k0
      · rw [dictDel, if_pos hk]
        exact ih hrest
      · rw [dictDel, if_neg hk]
        refine ⟨?_, ih hrest⟩
        by_cases hk0 : k0 = k
        · exact absurd hk0.symm hk
        · rw [dictGet_del_ne rest k0 k hk0]
          exact h0

/-- Counting after appending one binding. -/
theorem countConnsAt_append (d : List (Conn × Quality)) (ws : Conn)
    (q q2 : Quality) :
    countConnsAt (d ++ [(ws, q)]) q2
      = countConnsAt d q2 + (if q = q2 then 1 else 0) := by
  induction d with
  | nil => simp [countConnsAt]
  | cons p rest ih =>
      obtain ⟨w0, q0⟩ := p
      rw [List.cons_append, countConnsAt, ih, countConnsAt]
      ring

/-- Counts are non-negative. -/
theorem countConnsAt_nonneg (d : List (Conn × Quality)) (q : Quality) :
    0 ≤ countConnsAt d q := by
  induction d with
  | nil => exact le_refl 0
  | cons p rest ih =>
      obtain ⟨w0, q0⟩ := p
      rw [countConnsAt]
      by_cases hq : q0 = q
      · rw [if_pos hq]; omega
      · rw [if_neg hq]; omega

/-- A registered connection contributes at least one to the count of its
quality. -/
theorem countConnsAt_pos_of_get (d : List (Conn × Quality)) (ws : Conn)
    (q : Quality) (h : dictGet? d ws = some q) :
    1 ≤ countConnsAt d q := by
  induction d with
  | nil => cases h
  | cons p rest ih =>
      obtain ⟨w0, q0⟩ := p
      rw [dictGet?] at h
      by_cases hk : ws = w0
      · rw [if_pos hk] at h
        injection h with hq
        have := countConnsAt_nonneg rest q
        rw [countConnsAt, if_pos hq]
        omega
      · rw [if_neg hk] at h
        have := ih h
        rw [countConnsAt]
        by_cases hq : q0 = q
        · rw [if_pos hq]; omega
        · rw [if_neg hq]; omega

/-- Counting after deleting the binding of a registered connection. -/
theorem countConnsAt_del (d : List (Conn × Quality)) (ws : Conn)
    (qw q2 : Quality) (hnd : keysNodup d) (h : dictGet? d ws = some qw) :
    countConnsAt (dictDel d ws) q2
      = countConnsAt d q2 - (if qw = q2 then 1 else 0) := by
  induction d with
  | nil => cases h
  | cons p rest ih =>
      obtain ⟨w0, q0⟩ := p
      obtain ⟨h0, hrest⟩ := hnd
      rw [dictGet?] at h
      by_cases hk : ws = w0
      · rw [if_pos hk] at h
        injection h with hq
        subst hk
        rw [dictDel, if_pos rfl, dictDel_of_absent rest ws h0, countConnsAt,
          hq]
        ring
      · rw [if_neg hk] at h
        rw [dictDel, if_neg hk, countConnsAt, countConnsAt, ih hrest h]
        ring

/-- The invariant carried along program runs: active_sockets has distinct
keys and frames_needed[q] counts exactly the connections registered at q. -/
theorem inv_subscribe (st : State) (ws : Conn) (q : Quality)
    (hnd : keysNodup st.active)
    (hcnt : ∀ q2, counterGet st.needed q2 = countConnsAt st.active q2)
    (hfresh : dictGet? st.active ws = none) :
    keysNodup (subscribe st ws q).active
    ∧ ∀ q2, counterGet (subscribe st ws q).needed q2
        = countConnsAt (subscribe st ws q).active q2 := by
  have hact : (subscribe st ws q).active = st.active ++ [(ws, q)] :=
    dictSet_of_absent st.active ws q hfresh
  constructor
  · rw [hact]
    exact keysNodup_append st.active ws q hnd hfresh
  · intro q2
    rw [hact, countConnsAt_append]
    by_cases hq : q2 = q
    · subst hq
      simp only [subscribe]
      rw [counterGet_set_self, hcnt q2]
      simp
    · simp only [subscribe]
      rw [counterGet_set_ne _ _ _ _ hq, hcnt q2,
        if_neg (fun he => hq he.symm), add_zero]

theorem inv_removeSocket (st : State) (ws : Conn)
    (hnd : keysNodup st.active)
    (hcnt : ∀ q2, counterGet st.needed q2 = countConnsAt st.active q2) :
    keysNodup (removeSocket st ws).active
    ∧ ∀ q2, counterGet (removeSocket st ws).needed q2
        = countConnsAt (removeSocket st ws).active q2 := by
  cases hg : dictGet? st.active ws with
  | none =>
      rw [removeSocket_of_absent st ws hg]
      exact ⟨hnd, hcnt⟩
  | some qw =>
      have h1 : 1 ≤ countConnsAt st.active qw :=
        countConnsAt_pos_of_get st.active ws qw hg
      constructor
      · simp only [removeSocket, hg]
        exact keysNodup_del st.active ws hnd
      · intro q2
        simp only [removeSocket, hg]
        rw [countConnsAt_del st.active ws qw q2 hnd hg]
        by_cases hq : q2 = qw
        · subst hq
          rw [counterGet_set_self, hcnt q2, if_pos rfl,
            max_eq_left (by omega)]
        · rw [counterGet_set_ne _ _ _ _ hq, hcnt q2,
            if_neg (fun he => hq he.symm), sub_zero]

theorem inv_foldl_removeSocket (l : List Conn) :
    ∀ st : State, keysNodup st.active →
      (∀ q2, counterGet st.needed q2 = countConnsAt st.active q2) →
      keysNodup ((l.foldl removeSocket st)).active
      ∧ ∀ q2, counterGet ((l.foldl removeSocket st)).needed q2
          = countConnsAt ((l.foldl removeSocket st)).active q2 := by
  induction l with
  | nil => intro st hnd hcnt; exact ⟨hnd, hcnt⟩
  | cons a t ih =>
      intro st hnd hcnt
      rw [List.foldl_cons]
      obtain ⟨hnd2, hcnt2⟩ := inv_removeSocket st a hnd hcnt
      exact ih _ hnd2 hcnt2

/-- Every state the program reaches satisfies the registry invariant. -/
theorem progReachable_inv (st : State) (h : ProgReachable st) :
    keysNodup st.active
    ∧ ∀ q2, counterGet st.needed q2 = countConnsAt st.active q2 := by
  induction h with
  | refl => exact ⟨trivial, fun q2 => rfl⟩
  | tail _ hstep ih =>
      obtain ⟨hnd, hcnt⟩ := ih
      cases hstep with
      | sub ws q hfresh => exact inv_subscribe _ ws q hnd hcnt hfresh
      | cleanup ws => exact inv_removeSocket _ ws hnd hcnt
      | evict sendOk q => exact inv_foldl_removeSocket _ _ hnd hcnt

/-- C10: in every state reachable from the empty initial state by program
transitions (subscribe of a fresh handle, handler cleanup, broadcast-failure
eviction), frames_needed[q] equals the number of active_sockets entries
mapped to q; consequently, whenever a registered connection is removed the
zero clamp of the decrement is inert, the count being at least one. -/
theorem demand_matches_connections :
    ∀ st : State, ProgReachable st →
      (∀ q : Quality, counterGet st.needed q = countConnsAt st.active q)
      ∧ ∀ (ws : Conn) (q : Quality), dictGet? st.active ws = some q →
          max (counterGet st.needed q - 1) 0 = counterGet st.needed q - 1 := by
  intro st h
  obtain ⟨_, hcnt⟩ := progReachable_inv st h
  refine ⟨hcnt, ?_⟩
  intro ws q hg
  have h1 : 1 ≤ countConnsAt st.active q :=
    countConnsAt_pos_of_get st.active ws q hg
  rw [hcnt q]
  omega

theorem demand_matches_connections_witness :
    ProgReachable (subscribe initState 1 50)
    ∧ counterGet (subscribe initState 1 50).needed 50
        = countConnsAt (subscribe initState 1 50).active 50
    ∧ max (counterGet (subscribe initState 1 50).needed 50 - 1) 0
        = counterGet (subscribe initState 1 50).needed 50 - 1 := by
  have hr : ProgReachable (subscribe initState 1 50) :=
    Relation.ReflTransGen.single (ProgStep.sub initState 1 50 rfl)
  exact ⟨hr, (demand_matches_connections _ hr).1 50,
    (demand_matches_connections _ hr).2 1 50 (by decide)⟩

end ReRoCCTV
